import Mathlib

/-!
# Verification of the SiteTracker duplicate-detection pipeline

Shallow embedding of the core of the repository:

* `src/src/tools/duplicate_scanner.py` — LSH-banded near-duplicate scanner;
* `src/src/tools/hash_indexer.py` — concurrent hash indexing of S3 objects;
* `src/scripts/main/build_hash_index.py` — batch checkpoint driver;
* `src/src/utils/state.py` — incremental state snapshot.

Python `int` is modelled by `Nat`/`Int`, `float` similarity by `ℚ`,
`None`/missing cells by `Option`, raised exceptions by `Except String`.
-/

namespace SiteTracker

/-! ## Basic numeric helpers -/

/-- Auxiliary for `popcount`: structural recursion on a fuel bound (the value
halves each step, so any `fuel ≥ n` computes the full bit count). -/
def popcountAux : Nat → Nat → Nat
  | 0, _ => 0
  | fuel + 1, n => if n = 0 then 0 else n % 2 + popcountAux fuel (n / 2)

/-- Population count of a natural number (number of set bits).
Models Python `int.bit_count()` used by `_hamming_distance_int`. -/
def popcount (n : Nat) : Nat :=
  popcountAux n n

/-- `_hamming_distance_int(a, b) = (a ^ b).bit_count()`
(src/src/tools/duplicate_scanner.py lines 21-22). -/
def hamming_distance_int (a b : Nat) : Nat :=
  popcount (a ^^^ b)

/-- Value of a single hexadecimal digit character, if it is one. -/
def hexDigit? (c : Char) : Option Nat :=
  if '0' ≤ c ∧ c ≤ '9' then some (c.toNat - '0'.toNat)
  else if 'a' ≤ c ∧ c ≤ 'f' then some (c.toNat - 'a'.toNat + 10)
  else if 'A' ≤ c ∧ c ≤ 'F' then some (c.toNat - 'A'.toNat + 10)
  else none

/-- Models Python `int(s, 16)`: `some v` on success, `none` when a `ValueError`
is raised.  (Python additionally tolerates surrounding whitespace, a sign and
a `0x` prefix; the hash strings handled by the scanner are plain hex digit
strings, which is the fragment modelled here.) -/
def parseHex (s : String) : Option Nat :=
  if s.isEmpty then none
  else s.toList.foldl (fun acc c => do
    let a ← acc
    let d ← hexDigit? c
    pure (16 * a + d)) (some 0)

/-- `_hash_to_bits(hash_hex)`: `int(hash_hex, 16)`, or `0` if that raises
(src/src/tools/duplicate_scanner.py lines 13-18). -/
def hash_to_bits (s : String) : Nat :=
  (parseHex s).getD 0

/-- Auxiliary for `bitLen`: structural recursion on a fuel bound. -/
def bitLenAux : Nat → Nat → Nat
  | 0, _ => 0
  | fuel + 1, n => if n = 0 then 0 else bitLenAux fuel (n / 2) + 1

/-- Number of binary digits of `v` as produced by Python's `'{:b}'.format`
(`0` formats as the single digit `"0"`). -/
def bitLen (v : Nat) : Nat :=
  if v = 0 then 1 else bitLenAux v v

/-- Integer square root by bounded search: the number of positive `k` with
`k * k ≤ n`.  Models `int(numpy.sqrt(n))` in `imagehash.hex_to_hash` (exact
for the modest operands that arise there). -/
def isqrt (n : Nat) : Nat :=
  ((List.range (n + 1)).filter (fun k => 0 < k ∧ k * k ≤ n)).length

/-- Models `imagehash.hex_to_hash(s).hash.size`: the hex string is parsed as an
integer, a square side `hs = isqrt(4*len(s))` is taken, the integer is rendered
as a binary string zero-padded to width `hs*hs` (longer if the integer needs
more digits) and chopped into rows of `hs` bits; the resulting array's `size`
is the number of bits.  `none` models the exception path (unparseable hex, or a
ragged row split that makes `numpy.array` fail). -/
def hexToHashBits (s : String) : Option Nat :=
  match parseHex s with
  | none => none
  | some v =>
    let hs := isqrt (4 * s.length)
    let width := hs * hs
    let binLen := max width (bitLen v)
    if hs ≠ 0 ∧ binLen % hs = 0 then some binLen else none

/-! ## Duplicate scanner: data model

A pandas `DataFrame` row has an `image_name`, a `job_number` and one cell per
named column; hash columns hold `Option String` (`none` models `NaN`).
Columns are kept in order, as `df.columns` is ordered. -/

structure DataFrame where
  imageName : List String
  jobNumber : List String
  /-- The non-meta columns (name, one cell per row), in `df.columns` order. -/
  columns : List (String × List (Option String))

def DataFrame.nRows (df : DataFrame) : Nat := df.imageName.length

/-- `c.endswith("_hash")` as a character-list suffix test (equivalent to
`String.endsWith`, stated on `toList` so that proofs can evaluate it). -/
def strEndsWith (s suffix : String) : Bool :=
  suffix.toList.isSuffixOf s.toList

/-- `_collect_hash_columns(df)`: columns whose name ends with `"_hash"`, in
column order (src/src/tools/duplicate_scanner.py lines 9-10). -/
def hashCols (df : DataFrame) : List String :=
  (df.columns.filter (fun c => strEndsWith c.1 "_hash")).map (·.1)

/-- The cells of a named column (first occurrence; column names are unique in
the frames the scanner reads). -/
def DataFrame.col (df : DataFrame) (c : String) : List (Option String) :=
  match df.columns.find? (fun p => p.1 = c) with
  | some p => p.2
  | none => []

/-- `df[col].fillna("").astype(str).map(_hash_to_bits)` at row `i`
(src/src/tools/duplicate_scanner.py line 93): a missing cell becomes `""`,
which `int(_, 16)` rejects, so it decodes to `0`. -/
def decoded (df : DataFrame) (c : String) (i : Nat) : Nat :=
  hash_to_bits (((df.col c).getD i none).getD "")

/-- `df[hash_cols[0]].dropna().astype(str).head(1)`: the first non-null value
of the first hash column (src/src/tools/duplicate_scanner.py line 80). -/
def firstSample (df : DataFrame) : Option String :=
  ((df.col ((hashCols df).getD 0 "")).filterMap id).head?

/-- `total_bits` as computed by `find_duplicates` lines 83-87: the bit size of
`imagehash.hex_to_hash(sample)`, falling back to `64` on any exception. -/
def sampleTotalBits (sample : String) : Nat :=
  (hexToHashBits sample).getD 64

/-! ## Duplicate scanner: banding -/

/-- Scanner parameters (`DuplicateScanner.__init__`, defaults `5` and `8`).
`distance_threshold` is a Python `int`, so it is modelled as `Int`;
`num_bands` is used only through `range(num_bands)` and `B // num_bands`, and a
non-positive value yields no bands at all, so `Nat` (with `0` for "no bands")
is faithful. -/
structure ScanCfg where
  distanceThreshold : Int
  numBands : Nat

/-- `_band_slices(total_bits)` (src/src/tools/duplicate_scanner.py lines
51-60): the loop appends `(start, length)` pairs, the first `num_bands - 1`
of length `total_bits // num_bands` and the last absorbing the remainder. -/
def bandSlices (n B : Nat) : List (Nat × Nat) :=
  let bandSize := B / n
  (List.range n).foldl
    (fun (st : List (Nat × Nat) × Nat) i =>
      let length := if i < n - 1 then bandSize else B - st.2
      (st.1 ++ [(st.2, length)], st.2 + length))
    ([], 0) |>.1

/-- One band key: `(hash_int >> (total_bits - (start + length))) & ((1 << length) - 1)`
(src/src/tools/duplicate_scanner.py lines 62-71). -/
def bandKeyOf (hv B : Nat) (sl : Nat × Nat) : Nat :=
  (hv >>> (B - (sl.1 + sl.2))) &&& ((1 <<< sl.2) - 1)

/-- `_band_keys(hash_int, total_bits)`: the band keys in band order. -/
def bandKeys (hv B n : Nat) : List Nat :=
  (bandSlices n B).map (bandKeyOf hv B)

/-- Band key of row `i` of column `c` in band `band`. -/
def keyAt (df : DataFrame) (B n : Nat) (c : String) (i band : Nat) : Nat :=
  (bandKeys (decoded df c i) B n).getD band 0

/-- The bucket `band_buckets[(c, band, key)]` (lines 89-100): row indices `idx`
with a nonzero decoded hash whose `band`-th band key is `key`, in ascending
order (the buckets are filled in ascending `idx` order for each column). -/
def bucketList (df : DataFrame) (B n : Nat) (c : String) (band key : Nat) : List Nat :=
  (List.range df.nRows).filter
    (fun i => decoded df c i ≠ 0 ∧ keyAt df B n c i band = key)

/-! ## Duplicate scanner: candidate generation -/

/-- Same-column candidate generation (lines 102-111): for each bucket, every
unordered pair of distinct indices in it, lower index first, is a candidate
`(a, b, col, col)`. -/
def sameColCand (df : DataFrame) (B n : Nat) (a b : Nat) (c : String) : Bool :=
  decide (a < b) && (hashCols df).contains c &&
    (List.range n).any (fun band =>
      (bucketList df B n c band (keyAt df B n c a band)).contains a &&
      (bucketList df B n c band (keyAt df B n c a band)).contains b)

/-- Cross-column candidate generation (lines 113-128): for a shared
`(band, key)`, columns are paired in `hash_cols` order (`ci` strictly before
`cj`), every `a'` bucketed under `ci` is paired with every `b' ≠ a'` bucketed
under `cj`, and the pair is canonicalized as `(min, max, ci, cj)`. -/
def crossCand (df : DataFrame) (B n : Nat) (a b : Nat) (ci cj : String) : Bool :=
  decide ((hashCols df).indexOf ci < (hashCols df).indexOf cj) &&
    (hashCols df).contains ci && (hashCols df).contains cj &&
    (List.range n).any (fun band =>
      (List.range df.nRows).any (fun a' =>
        (List.range df.nRows).any (fun b' =>
          decide (a' ≠ b') &&
          (bucketList df B n ci band (keyAt df B n ci a' band)).contains a' &&
          (bucketList df B n cj band (keyAt df B n ci a' band)).contains b' &&
          decide (a = min a' b') && decide (b = max a' b'))))

/-- Membership in the `candidate_pairs` set (lines 102-128). -/
def candMem (df : DataFrame) (B n : Nat) (a b : Nat) (ci cj : String) : Bool :=
  (decide (ci = cj) && sameColCand df B n a b ci) || crossCand df B n a b ci cj

/-- One possible iteration order of the Python `set` `candidate_pairs`
(set iteration order is arbitrary; every property proved about the scanner
output is insensitive to this order because the output is re-sorted). -/
def candList (df : DataFrame) (B n : Nat) : List (Nat × Nat × String × String) :=
  (List.range df.nRows).flatMap (fun a =>
    (List.range df.nRows).flatMap (fun b =>
      (hashCols df).flatMap (fun ci =>
        (hashCols df).filterMap (fun cj =>
          if candMem df B n a b ci cj then some (a, b, ci, cj) else none))))

/-! ## Duplicate scanner: verification and output -/

/-- `DuplicateMatch` (src/src/tools/duplicate_scanner.py lines 25-34);
the float `similarity` is modelled as `ℚ`. -/
structure DuplicateMatch where
  image_a : String
  image_b : String
  job_a : String
  job_b : String
  hash_key_a : String
  hash_key_b : String
  distance : Nat
  similarity : ℚ
deriving DecidableEq

/-- Validation of one candidate pair (lines 132-152): skip if either decoded
hash is `0`, compute the exact Hamming distance, retain iff it is at most
`distance_threshold`, and report `similarity = 1 - dist/total_bits`. -/
def matchOf (df : DataFrame) (cfg : ScanCfg) (B : Nat)
    (cand : Nat × Nat × String × String) : Option DuplicateMatch :=
  let (a, b, ci, cj) := cand
  let hvI := decoded df ci a
  let hvJ := decoded df cj b
  if hvI = 0 ∨ hvJ = 0 then none
  else
    let dist := hamming_distance_int hvI hvJ
    if (dist : Int) ≤ cfg.distanceThreshold then
      some {
        image_a := df.imageName.getD a ""
        image_b := df.imageName.getD b ""
        job_a := df.jobNumber.getD a ""
        job_b := df.jobNumber.getD b ""
        hash_key_a := ci
        hash_key_b := cj
        distance := dist
        similarity := 1 - (dist : ℚ) / (B : ℚ) }
    else none

/-- The three-part sort key of `out.sort_values(["distance", "image_a",
"image_b"])` (line 157): distance first, then the two identifiers compared as
Python compares strings — lexicographically by code point (shorter prefix
first), which is the `Lex` order on the character lists. -/
def matchKey (m : DuplicateMatch) : Lex (Nat × Lex (List Char × List Char)) :=
  toLex (m.distance, toLex (m.image_a.toList, m.image_b.toList))

/-- The ascending comparison realizing that sort. -/
def matchLe (x y : DuplicateMatch) : Bool :=
  decide (matchKey x ≤ matchKey y)

/-- `DuplicateScanner.find_duplicates(df)` (lines 73-158).  Returns the sorted
match list; the empty list models the empty `DataFrame` early returns. -/
def find_duplicates (df : DataFrame) (cfg : ScanCfg) : List DuplicateMatch :=
  if hashCols df = [] then []
  else
    match firstSample df with
    | none => []
    | some sample =>
      let B := sampleTotalBits sample
      let ms := (candList df B cfg.numBands).filterMap (matchOf df cfg B)
      ms.mergeSort matchLe

/-! ## Hash indexer (src/src/tools/hash_indexer.py)

The external effects — S3 byte fetch and perceptual hashing — are abstracted
as a parameter `proc : S3Obj → Except String (List (String × String))`
standing for `hashes_for_image(stream_bytes(...))`: `.error e` models any
exception raised while fetching/decoding/hashing one object. -/

/-- The fields of `S3Object` (src/src/clients/aws_client.py lines 11-20) used
by the indexer and driver (`bucket`, `size`, `last_modified`, `job_id` are
not consulted by them and are omitted). -/
structure S3Obj where
  key : String
  etag : String
  job_number : String
  job_url : Option String
deriving DecidableEq

/-- `HashRecord` (src/src/tools/hash_indexer.py lines 12-17). -/
structure HashRecord where
  image_name : String
  job_number : String
  job_url : Option String
  hashes : List (String × String)
deriving DecidableEq

/-- A flattened output row, as produced by `HashRecord.to_row` (lines 19-26):
`job_url or ""` maps a missing URL to the empty string. -/
structure HashRow where
  image_name : String
  job_number : String
  job_url : String
  hashes : List (String × String)
deriving DecidableEq

def HashRecord.to_row (r : HashRecord) : HashRow :=
  { image_name := r.image_name
    job_number := r.job_number
    job_url := r.job_url.getD ""
    hashes := r.hashes }

/-- `HashIndexer._process_one(obj)` (lines 36-39). -/
def process_one (proc : S3Obj → Except String (List (String × String)))
    (o : S3Obj) : Except String HashRecord :=
  (proc o).map (fun hs =>
    { image_name := o.key, job_number := o.job_number, job_url := o.job_url, hashes := hs })

/-- `HashIndexer.build_dataframe(objects)` (lines 41-57).  Each worker's
exception is caught at the `fut.result()` boundary and only logged
(lines 49-51) — the failure detail is discarded, not collected.  The workers
complete in nondeterministic order (`as_completed`); submission order is used
here, and every property proved below is insensitive to the order of `records`.
With zero successful records, `pd.DataFrame([])` has no columns and the final
column selection `df[meta_cols + hash_cols]` raises a `KeyError`; otherwise the
selection only reorders columns, leaving the row data unchanged. -/
def build_dataframe (proc : S3Obj → Except String (List (String × String)))
    (objs : List S3Obj) : Except String (List HashRow) :=
  let records := objs.filterMap (fun o => (process_one proc o).toOption)
  if records.isEmpty then
    .error "KeyError: image_name"
  else
    .ok (records.map HashRecord.to_row)

/-- A failure record `{identifier, error_message}` of the error sidecar. -/
structure FailureEntry where
  identifier : String
  error_message : String
deriving DecidableEq

/-- The attribute lookup `indexer.drain_failures` performed by the driver
(src/scripts/main/build_hash_index.py line 87): `HashIndexer`
(src/src/tools/hash_indexer.py) defines no such method — its only methods are
`__init__`, `_process_one` and `build_dataframe` — so the call raises
`AttributeError`. -/
def drain_failures : Except String (List FailureEntry) :=
  .error "AttributeError: HashIndexer object has no attribute drain_failures"

/-! ## Incremental state (src/src/utils/state.py lines 8-32) -/

/-- `IncrementalState`: a dict `seen` from key to etag, modelled as an
association list with unique keys (first match wins on lookup, in-place
update on insert — exactly a Python dict's behaviour). -/
structure IncrementalState where
  seen : List (String × String)
deriving DecidableEq

/-- Python dict assignment `d[k] = v`. -/
def dictSet : List (String × String) → String → String → List (String × String)
  | [], k, v => [(k, v)]
  | (k', v') :: rest, k, v =>
    if k' = k then (k', v) :: rest else (k', v') :: dictSet rest k v

/-- Python dict read `d.get(k)` (`none` models `None`). -/
def dictGet (d : List (String × String)) (k : String) : Option String :=
  d.lookup k

/-- `needs_processing(key, etag)`: `self.seen.get(key) != etag` (lines 28-29). -/
def IncrementalState.needs_processing (st : IncrementalState) (key etag : String) : Bool :=
  dictGet st.seen key ≠ some etag

/-- `mark_processed(key, etag)`: `self.seen[key] = etag` (lines 31-32). -/
def IncrementalState.mark_processed (st : IncrementalState) (key etag : String) :
    IncrementalState :=
  { seen := dictSet st.seen key etag }

/-! ## Batch checkpoint driver (src/scripts/main/build_hash_index.py)

The loop body for one batch (lines 85-111) is modelled as a function from the
batch and the current state to the new state plus the ordered trace of durable
effects it performs (CSV appends and the state save). -/

/-- A durable effect of the batch loop, in program order. -/
inductive DriverEvent where
  | appendRows (rows : List HashRow)
  | appendFailures (fs : List FailureEntry)
  | saveState (st : IncrementalState)
deriving DecidableEq

def DriverEvent.isSave : DriverEvent → Bool
  | .saveState _ => true
  | _ => false

/-- `key_to_etag.get(key)` where `key_to_etag = {o.key: o.etag for o in batch}`
(build_hash_index.py line 105): a Python dict comprehension keeps the last
occurrence of a duplicated key, hence the search over `batch.reverse`. -/
def etagOf (batch : List S3Obj) (k : String) : Option String :=
  (batch.reverse.find? (fun o => o.key = k)).map (·.etag)

/-- One iteration of the marking loop (build_hash_index.py lines 106-109):
`etag = key_to_etag.get(key); if etag: state.mark_processed(key, etag)` —
a missing or falsy (empty) etag is skipped. -/
def markStep (batch : List S3Obj) (s : IncrementalState) (r : HashRow) :
    IncrementalState :=
  match etagOf batch r.image_name with
  | some etag => if etag = "" then s else s.mark_processed r.image_name etag
  | none => s

/-- The batch loop body exactly as shipped (lines 85-111): build the batch
frame, then call `indexer.drain_failures()` — which raises `AttributeError`
because `HashIndexer` has no such method — so the run aborts before any append
or checkpoint. -/
def runBatch (proc : S3Obj → Except String (List (String × String)))
    (batch : List S3Obj) (st : IncrementalState) :
    Except String (IncrementalState × List DriverEvent) := do
  let rows ← build_dataframe proc batch                     -- line 85
  let _failures ← drain_failures                            -- line 87: raises
  let ev1 := if rows.isEmpty then ([] : List DriverEvent)
             else [DriverEvent.appendRows rows]             -- lines 94-96
  let ev2 := if _failures.isEmpty then ([] : List DriverEvent)
             else [DriverEvent.appendFailures _failures]    -- lines 99-102
  let st' := rows.foldl (markStep batch) st                 -- lines 105-109
  pure (st', ev1 ++ ev2 ++ [DriverEvent.saveState st'])     -- line 110

/-- Modelled from the spec: `HashIndexer.drain_failures`, called by the driver
(build_hash_index.py line 87) but missing from src/src/tools/hash_indexer.py.
Per spec §4.3 the indexer's contract is
`process(work_items) -> (rows, failures: list({identifier, error_message}))`,
with each per-item failure "recorded as a failure entry rather than raised" —
so `drain_failures` returns the failure entries of the items that failed in
the preceding `build_dataframe` call. -/
def drainFailuresSpec (proc : S3Obj → Except String (List (String × String)))
    (objs : List S3Obj) : List FailureEntry :=
  objs.filterMap (fun o =>
    match proc o with
    | .error e => some { identifier := o.key, error_message := e }
    | .ok _ => none)

/-- The batch loop body (lines 85-111) with the missing `drain_failures`
modelled from the spec (see `drainFailuresSpec`), so that the checkpointing
tail of the loop (lines 93-111) can be analysed: append the batch's rows
(line 95, skipped when empty), append the failure sidecar (line 102, skipped
when empty), then mark exactly the successfully processed keys — skipping any
whose etag is falsy (`if etag:` on line 108) — and finally save the state
(line 110). -/
def processBatchSpec (proc : S3Obj → Except String (List (String × String)))
    (batch : List S3Obj) (st : IncrementalState) :
    Except String (IncrementalState × List DriverEvent) := do
  let rows ← build_dataframe proc batch                     -- line 85
  let failures := drainFailuresSpec proc batch              -- line 87 (spec-modelled)
  let ev1 := if rows.isEmpty then ([] : List DriverEvent)
             else [DriverEvent.appendRows rows]             -- lines 94-96
  let ev2 := if failures.isEmpty then ([] : List DriverEvent)
             else [DriverEvent.appendFailures failures]     -- lines 99-102
  let st' := rows.foldl (markStep batch) st                 -- lines 105-109
  pure (st', ev1 ++ ev2 ++ [DriverEvent.saveState st'])     -- line 110

/-! ## `IncrementalState.save` as filesystem operations
(src/src/utils/state.py lines 23-26) -/

/-- A primitive filesystem operation on the state file. -/
inductive FsOp where
  | truncate
  | write (s : String)
deriving DecidableEq

/-- Effect of one operation on the state file's content
(`none` = file absent). -/
def applyOp : Option String → FsOp → Option String
  | _, .truncate => some ""
  | d, .write s => some ((d.getD "") ++ s)

def runOps (disk : Option String) (ops : List FsOp) : Option String :=
  ops.foldl applyOp disk

/-- The JSON snapshot `json.dump(asdict(self), f, indent=2)` writes; the exact
whitespace is immaterial — what matters below is that a snapshot document is
never the empty string. -/
def serializeState (st : IncrementalState) : String :=
  "\x7b\"seen\": \x7b" ++
    String.intercalate ", "
      (st.seen.map (fun p => "\"" ++ p.1 ++ "\": \"" ++ p.2 ++ "\"")) ++
    "\x7d\x7d"

/-- `IncrementalState.save(path)` (lines 23-26): `path.open("w")` truncates the
existing file in place, then the JSON document is written.  (`json.dump`
issues many small writes; collapsing them into one write only removes some of
the partially-written crash states — the state reached between the truncate
and the write already exhibits every claim checked below.)  There is no
write-to-temp-then-rename step anywhere in the function. -/
def saveOps (st : IncrementalState) : List FsOp :=
  [FsOp.truncate, FsOp.write (serializeState st)]

/-! ## Final consolidation pass (src/scripts/main/build_hash_index.py
lines 113-125)

A read-back row is keyed by its `image_name`; the payload type is abstract.
`df.sort_values("image_name")` uses pandas' default `kind="quicksort"`, which
is **not stable**, so the sort is modelled relationally: any permutation of
the rows that is ascending on the key is a possible outcome. -/

/-- `p` is a possible result of `df_all.sort_values("image_name")` on `rows`:
a permutation that is ascending on the key, Python string order being
lexicographic by code point (the `Lex` order on the character lists). -/
def IsSortResult (rows p : List (String × String)) : Prop :=
  p.Perm rows ∧ p.Pairwise (fun r s => r.1.toList ≤ s.1.toList)

/-- `drop_duplicates(subset=["image_name"], keep="last")`: keep a row iff no
later row has the same key, preserving order. -/
def keepLast : List (String × String) → List (String × String)
  | [] => []
  | r :: rs => if rs.any (fun s => s.1 = r.1) then keepLast rs else r :: keepLast rs

/-- Lines 115-123 applied to a possible sort result `p` of the read-back rows:
dedup keeping the last occurrence, and rewrite (`some result`) only when the
row count changed; `none` means the file is left untouched. -/
def consolidate (rows p : List (String × String)) : Option (List (String × String)) :=
  let deduped := keepLast p
  if deduped.length ≠ rows.length then some deduped else none

/-! ## Theorems: band partition (C6) -/

/-- The slice appended for band index `i` by the `_band_slices` loop. -/
def sliceF (n B i : Nat) : Nat × Nat :=
  if i < n - 1 then (i * (B / n), B / n)
  else ((n - 1) * (B / n), B - (n - 1) * (B / n))

theorem bandSlices_eq (n B : Nat) (hn : 1 ≤ n) :
    bandSlices n B = (List.range n).map (sliceF n B) := by
  have hbs : (n - 1) * (B / n) ≤ B := by
    calc (n - 1) * (B / n) ≤ n * (B / n) :=
          Nat.mul_le_mul_right _ (Nat.sub_le n 1)
    _ = (B / n) * n := Nat.mul_comm _ _
    _ ≤ B := Nat.div_mul_le_self B n
  have key : ∀ k, k ≤ n →
      (List.range k).foldl
        (fun (st : List (Nat × Nat) × Nat) i =>
          let length := if i < n - 1 then B / n else B - st.2
          (st.1 ++ [(st.2, length)], st.2 + length))
        ([], 0)
      = ((List.range k).map (sliceF n B), if k < n then k * (B / n) else B) := by
    intro k
    induction k with
    | zero =>
      intro _
      have h0 : 0 < n := hn
      simp [List.range_zero, h0]
    | succ k ih =>
      intro hk
      rw [List.range_succ, List.foldl_append, ih (Nat.le_of_succ_le hk),
        List.map_append]
      simp only [List.foldl_cons, List.foldl_nil, List.map_cons, List.map_nil]
      have hkn : k < n := hk
      by_cases hlt : k < n - 1
      · have hk1 : k + 1 < n := by omega
        have harith : k * (B / n) + B / n = (k + 1) * (B / n) := by ring
        simp [if_pos hlt, if_pos hkn, if_pos hk1, sliceF, harith]
      · have hkeq : k = n - 1 := by omega
        subst hkeq
        have h1 : ¬ (n - 1 + 1 < n) := by omega
        have h2 : (n - 1) * (B / n) + (B - (n - 1) * (B / n)) = B := by omega
        have h0 : 0 < n := hn
        have h0' : n ≠ 0 := by omega
        simp [if_neg hlt, if_pos hkn, if_neg h1, sliceF, h2, h0, h0']
  have := key n (Nat.le_refl n)
  simp only [bandSlices, this]

/-- The conclusion of claim C6 for `num_bands = n` and `total_bits = B`:
`_band_slices` yields `n` bands, the first `n - 1` of length `B / n` starting
at `i * (B / n)`, the last absorbing the remainder; the lengths sum to `B`;
and every bit position below `B` lies in exactly one band. -/
def BandPartitionOK (n B : Nat) : Prop :=
  (bandSlices n B).length = n ∧
  (∀ i, i < n - 1 → (bandSlices n B).getD i (0, 0) = (i * (B / n), B / n)) ∧
  (bandSlices n B).getD (n - 1) (0, 0) =
    ((n - 1) * (B / n), B - (n - 1) * (B / n)) ∧
  ((bandSlices n B).map (·.2)).sum = B ∧
  (∀ k, k < B → ∃! i, i < n ∧
    ((bandSlices n B).getD i (0, 0)).1 ≤ k ∧
    k < ((bandSlices n B).getD i (0, 0)).1 + ((bandSlices n B).getD i (0, 0)).2)

theorem bandSlices_getD (n B : Nat) (hn : 1 ≤ n) (i : Nat) (hi : i < n) :
    (bandSlices n B).getD i (0, 0) = sliceF n B i := by
  rw [bandSlices_eq n B hn, List.getD_eq_getElem?_getD, List.getElem?_map,
    List.getElem?_range hi]
  rfl

/-- **C6.** For every total bit width `B ≥ 1` and every `num_bands ≥ 1`, the
band partition computed by `_band_slices` consists of `num_bands` contiguous
bands, the first `num_bands - 1` of length `B // num_bands`, the last
absorbing the remainder; the band lengths sum to `B` and every bit position
below `B` belongs to exactly one band. -/
theorem C6_band_partition (n B : Nat) (hn : 1 ≤ n) (_hB : 1 ≤ B) :
    BandPartitionOK n B := by
  have hbs : (n - 1) * (B / n) ≤ B := by
    calc (n - 1) * (B / n) ≤ n * (B / n) :=
          Nat.mul_le_mul_right _ (Nat.sub_le n 1)
    _ = (B / n) * n := Nat.mul_comm _ _
    _ ≤ B := Nat.div_mul_le_self B n
  refine ⟨?_, ?_, ?_, ?_, ?_⟩
  · rw [bandSlices_eq n B hn]; simp
  · intro i hi
    rw [bandSlices_getD n B hn i (by omega)]
    simp [sliceF, if_pos hi]
  · rw [bandSlices_getD n B hn (n - 1) (by omega)]
    simp [sliceF]
  · rw [bandSlices_eq n B hn, List.map_map]
    obtain ⟨m, rfl⟩ : ∃ m, n = m + 1 := ⟨n - 1, by omega⟩
    rw [List.range_succ, List.map_append]
    have hconst : (List.range m).map ((fun p : Nat × Nat => p.2) ∘ sliceF (m + 1) B)
        = (List.range m).map (fun _ => B / (m + 1)) := by
      apply List.map_congr_left
      intro i hi
      have h : i < m := List.mem_range.mp hi
      simp [sliceF, h]
    rw [hconst, List.map_const', List.sum_append, List.sum_replicate, smul_eq_mul,
      List.length_range]
    have hbs' : m * (B / (m + 1)) ≤ B := by simpa using hbs
    simp [sliceF]
    omega
  · intro k hk
    -- any two bands containing position `k` coincide
    have uniq : ∀ i j, i < n → j < n →
        ((sliceF n B i).1 ≤ k ∧ k < (sliceF n B i).1 + (sliceF n B i).2) →
        ((sliceF n B j).1 ≤ k ∧ k < (sliceF n B j).1 + (sliceF n B j).2) →
        i = j := by
      intro i j hi hj hci hcj
      obtain ⟨hi1, hi2⟩ := hci
      obtain ⟨hj1, hj2⟩ := hcj
      by_cases hilt : i < n - 1 <;> by_cases hjlt : j < n - 1
      · simp only [sliceF, if_pos hilt] at hi1 hi2
        simp only [sliceF, if_pos hjlt] at hj1 hj2
        have hbs0 : 0 < B / n := by
          rcases Nat.eq_zero_or_pos (B / n) with h0 | h0
          · rw [h0, Nat.mul_zero] at hi1 hi2; omega
          · exact h0
        have e1 : (i + 1) * (B / n) = i * (B / n) + B / n := by ring
        have e2 : (j + 1) * (B / n) = j * (B / n) + B / n := by ring
        have l1 : i * (B / n) < (j + 1) * (B / n) := by omega
        have l2 : j * (B / n) < (i + 1) * (B / n) := by omega
        have := Nat.lt_of_mul_lt_mul_right l1
        have := Nat.lt_of_mul_lt_mul_right l2
        omega
      · exfalso
        simp only [sliceF, if_pos hilt] at hi1 hi2
        simp only [sliceF, if_neg hjlt] at hj1 hj2
        have e1 : (i + 1) * (B / n) = i * (B / n) + B / n := by ring
        have l1 : (i + 1) * (B / n) ≤ (n - 1) * (B / n) :=
          Nat.mul_le_mul_right _ (by omega)
        omega
      · exfalso
        simp only [sliceF, if_neg hilt] at hi1 hi2
        simp only [sliceF, if_pos hjlt] at hj1 hj2
        have e2 : (j + 1) * (B / n) = j * (B / n) + B / n := by ring
        have l2 : (j + 1) * (B / n) ≤ (n - 1) * (B / n) :=
          Nat.mul_le_mul_right _ (by omega)
        omega
      · omega
    by_cases hk1 : k < (n - 1) * (B / n)
    · have hbs0 : 0 < B / n := by
        rcases Nat.eq_zero_or_pos (B / n) with h0 | h0
        · rw [h0, Nat.mul_zero] at hk1; omega
        · exact h0
      have hilt : k / (B / n) < n - 1 := (Nat.div_lt_iff_lt_mul hbs0).mpr hk1
      have hle : k / (B / n) * (B / n) ≤ k := Nat.div_mul_le_self k (B / n)
      have hlt2 : k < (k / (B / n) + 1) * (B / n) :=
        (Nat.div_lt_iff_lt_mul hbs0).mp (Nat.lt_succ_self _)
      have e3 : (k / (B / n) + 1) * (B / n) = k / (B / n) * (B / n) + B / n := by
        ring
      have hcov0 : (sliceF n B (k / (B / n))).1 ≤ k ∧
          k < (sliceF n B (k / (B / n))).1 + (sliceF n B (k / (B / n))).2 := by
        simp only [sliceF, if_pos hilt]
        exact ⟨hle, by omega⟩
      refine ⟨k / (B / n), ⟨by omega, ?_⟩, ?_⟩
      · rw [bandSlices_getD n B hn (k / (B / n)) (by omega)]
        exact hcov0
      · rintro j ⟨hj, hcov⟩
        rw [bandSlices_getD n B hn j hj] at hcov
        exact uniq j (k / (B / n)) hj (by omega) hcov hcov0
    · have hlast : ¬ (n - 1 < n - 1) := by omega
      have hcov0 : (sliceF n B (n - 1)).1 ≤ k ∧
          k < (sliceF n B (n - 1)).1 + (sliceF n B (n - 1)).2 := by
        simp only [sliceF, if_neg hlast]
        exact ⟨by omega, by omega⟩
      refine ⟨n - 1, ⟨by omega, ?_⟩, ?_⟩
      · rw [bandSlices_getD n B hn (n - 1) (by omega)]
        exact hcov0
      · rintro j ⟨hj, hcov⟩
        rw [bandSlices_getD n B hn j hj] at hcov
        exact uniq j (n - 1) hj (by omega) hcov hcov0

/-- Witness for C6 at `num_bands = 3`, `total_bits = 10`. -/
theorem C6_band_partition_witness : BandPartitionOK 3 10 :=
  C6_band_partition 3 10 (by norm_num) (by norm_num)

/-! ## Theorems: empty-result batches raise (C9) -/

/-- **C9.** For every work list on which no item is processed successfully —
the empty list included — `HashIndexer.build_dataframe` raises (the
metadata-column selection `df[meta_cols + hash_cols]` fails with a `KeyError`
on the empty frame) instead of returning an empty table of rows. -/
theorem C9_build_dataframe_raises_when_no_success
    (proc : S3Obj → Except String (List (String × String)))
    (objs : List S3Obj)
    (h : ∀ o ∈ objs, ∃ e, proc o = .error e) :
    ∃ msg, build_dataframe proc objs = .error msg := by
  refine ⟨"KeyError: image_name", ?_⟩
  have hemp : objs.filterMap (fun o => (process_one proc o).toOption) = [] := by
    apply List.filterMap_eq_nil_iff.mpr
    intro o ho
    obtain ⟨e, he⟩ := h o ho
    simp [process_one, he, Except.map, Except.toOption]
  simp [build_dataframe, hemp]

/-- Witness for C9: a one-element batch whose only item fails to decode, and
the empty batch. -/
theorem C9_build_dataframe_raises_witness :
    (∃ msg, build_dataframe
      (fun _ => .error "DecodeError") [⟨"img1.png", "e1", "job1", none⟩]
      = .error msg) ∧
    (∃ msg, build_dataframe (fun _ => .error "DecodeError") [] = .error msg) :=
  ⟨C9_build_dataframe_raises_when_no_success _ _
      (fun o _ => ⟨"DecodeError", rfl⟩),
   C9_build_dataframe_raises_when_no_success _ _ (fun o ho => absurd ho (by simp))⟩

/-! ## Theorems: the shipped batch loop aborts (C1) -/

/-- The scenario batch of claim C1: 10 objects, the 7th corrupt. -/
def c1Batch : List S3Obj :=
  (List.range 10).map (fun i =>
    { key := "img" ++ toString i ++ ".png"
      etag := "etag" ++ toString i
      job_number := "job1"
      job_url := some "http://j" })

/-- Fetch/hash outcomes for the C1 scenario: every object succeeds except
`img7.png`, which raises a decode error. -/
def c1Proc (o : S3Obj) : Except String (List (String × String)) :=
  if o.key = "img7.png" then .error "DecodeError: corrupt image"
  else .ok [("original_hash", "ab"), ("h_flip_hash", "cd"), ("v_flip_hash", "ef")]

/-- **C1** (code bug, evaluated at the failing input).  The spec requires the
batch of 9 valid and 1 corrupt images to yield 9 successful rows plus 1
failure record, with the 9 successes checkpointed.  The shipped code cannot:
`HashIndexer` only logs per-item failures without recording them, and defines
no `drain_failures`, so `run_from_config`'s call `indexer.drain_failures()`
(build_hash_index.py line 87) raises `AttributeError` — although
`build_dataframe` did produce the 9 rows, the batch loop aborts before any
append or checkpoint, performing no durable effect at all. -/
theorem C1_batch_loop_aborts_on_drain_failures :
    ((build_dataframe c1Proc c1Batch).map List.length = .ok 9) ∧
    runBatch c1Proc c1Batch ⟨[]⟩ =
      .error "AttributeError: HashIndexer object has no attribute drain_failures" := by
  constructor
  · rfl
  · rfl

/-! ## Theorems: `IncrementalState.save` is not crash-atomic (C3) -/

/-- **C3** (code bug, evaluated at the failing input).  The claim (and spec
§4.2) requires `save` to use a write-to-temp-then-rename discipline so that a
crash before completion leaves the prior snapshot intact.  The code instead
does `path.open("w")` — truncating the live snapshot in place — and then
writes the JSON document into it.  A crash between the truncate and the write
(the first proper prefix of `saveOps`) leaves an empty file on disk: neither
the complete prior snapshot nor the complete new snapshot. -/
theorem C3_save_not_crash_atomic :
    runOps (some (serializeState ⟨[("img1.png", "e1")]⟩))
        ((saveOps ⟨[("img1.png", "e2")]⟩).take 1) = some "" ∧
    some "" ≠ some (serializeState ⟨[("img1.png", "e1")]⟩) ∧
    some "" ≠ some (serializeState ⟨[("img1.png", "e2")]⟩) ∧
    runOps (some (serializeState ⟨[("img1.png", "e1")]⟩))
        (saveOps ⟨[("img1.png", "e2")]⟩) =
      some (serializeState ⟨[("img1.png", "e2")]⟩) := by
  refine ⟨rfl, ?_, ?_, rfl⟩
  · decide
  · decide

/-! ## Theorems: checkpoint ordering of the batch loop (C2)

`processBatchSpec` is `runBatch` with the missing `drain_failures` modelled
from the spec (see `drainFailuresSpec`), so the checkpointing tail of the
loop (build_hash_index.py lines 93-111) can be analysed at all. -/

/-- Keys of the batch objects that `proc` processes successfully. -/
def successKeys (proc : S3Obj → Except String (List (String × String)))
    (batch : List S3Obj) : List String :=
  (batch.filter (fun o => (proc o).toOption.isSome)).map (·.key)

theorem lookup_cons_ne (a k b : String) (es : List (String × String))
    (h : a ≠ k) : ((k, b) :: es).lookup a = es.lookup a := by
  rw [List.lookup_cons]
  have hbeq : (a == k) = false := beq_eq_false_iff_ne.mpr h
  rw [hbeq]

theorem dictGet_dictSet_self (d : List (String × String)) (k v : String) :
    dictGet (dictSet d k v) k = some v := by
  induction d with
  | nil => simp [dictSet, dictGet]
  | cons p rest ih =>
    obtain ⟨a, b⟩ := p
    by_cases h : a = k
    · subst h
      simp [dictSet, dictGet]
    · have h' : k ≠ a := fun hh => h hh.symm
      simp only [dictSet, if_neg h, dictGet, lookup_cons_ne k a b _ h']
      simpa [dictGet] using ih

theorem dictGet_dictSet_ne (d : List (String × String)) (k k' v : String)
    (h : k' ≠ k) : dictGet (dictSet d k v) k' = dictGet d k' := by
  induction d with
  | nil => simp [dictSet, dictGet, lookup_cons_ne k' k v [] h]
  | cons p rest ih =>
    obtain ⟨a, b⟩ := p
    by_cases hp : a = k
    · subst hp
      have hset : dictSet ((a, b) :: rest) a v = (a, v) :: rest := by
        simp [dictSet]
      rw [hset]
      simp only [dictGet, lookup_cons_ne k' a v rest h,
        lookup_cons_ne k' a b rest h]
    · simp only [dictSet, if_neg hp, dictGet]
      by_cases hk' : k' = a
      · subst hk'
        simp [List.lookup_cons]
      · rw [lookup_cons_ne k' a b _ hk', lookup_cons_ne k' a b _ hk']
        simpa [dictGet] using ih

theorem find?_key_unique {l : List S3Obj} {o : S3Obj}
    (hnodup : (l.map (·.key)).Nodup) (ho : o ∈ l) :
    l.find? (fun o' => o'.key = o.key) = some o := by
  induction l with
  | nil => cases ho
  | cons x rest ih =>
    rcases List.mem_cons.mp ho with rfl | hmem
    · simp [List.find?]
    · have hx : x.key ≠ o.key := by
        intro he
        have : o.key ∈ rest.map (·.key) := List.mem_map_of_mem _ hmem
        rw [← he] at this
        exact (List.nodup_cons.mp (by simpa using hnodup)).1 this
      rw [List.find?_cons_of_neg _ (by simp [hx])]
      exact ih (List.nodup_cons.mp (by simpa using hnodup)).2 hmem

theorem etagOf_eq {batch : List S3Obj} {o : S3Obj}
    (hnodup : (batch.map (·.key)).Nodup) (ho : o ∈ batch) :
    etagOf batch o.key = some o.etag := by
  unfold etagOf
  rw [find?_key_unique _ (List.mem_reverse.mpr ho)]
  · rfl
  · rw [List.map_reverse]
    exact List.nodup_reverse.mpr hnodup

/-- If no row of the fold marks `k` — either `k` is not among the rows'
identifiers, or its etag is missing or empty — the state's entry for `k` is
untouched. -/
theorem foldl_markStep_not_marked (batch : List S3Obj) (rows : List HashRow)
    (st : IncrementalState) (k : String)
    (h : (∀ r ∈ rows, r.image_name ≠ k) ∨
         etagOf batch k = none ∨ etagOf batch k = some "") :
    dictGet (rows.foldl (markStep batch) st).seen k = dictGet st.seen k := by
  revert h
  induction rows generalizing st with
  | nil => intro _; rfl
  | cons r rest ih =>
    intro h
    rw [List.foldl_cons]
    have hstep : dictGet (markStep batch st r).seen k = dictGet st.seen k := by
      by_cases hr : r.image_name = k
      · rcases h with h1 | h2 | h3
        · exact absurd hr (h1 r (by simp))
        · simp [markStep, hr, h2]
        · simp [markStep, hr, h3]
      · unfold markStep
        cases het : etagOf batch r.image_name with
        | none => rfl
        | some e =>
          by_cases he : e = ""
          · simp [he]
          · simp only [if_neg he, IncrementalState.mark_processed]
            exact dictGet_dictSet_ne _ _ _ _ (fun hh => hr hh.symm)
    have hrest : (∀ r' ∈ rest, r'.image_name ≠ k) ∨
        etagOf batch k = none ∨ etagOf batch k = some "" := by
      rcases h with h1 | h2 | h3
      · exact Or.inl (fun r' hr' => h1 r' (by simp [hr']))
      · exact Or.inr (Or.inl h2)
      · exact Or.inr (Or.inr h3)
    exact (ih (markStep batch st r) hrest).trans hstep

/-- If `k` is among the rows' identifiers (which are distinct) and its batch
etag is nonempty, the fold records that etag for `k`. -/
theorem foldl_markStep_marked (batch : List S3Obj) (rows : List HashRow)
    (st : IncrementalState) (k e : String)
    (hnodup : (rows.map (·.image_name)).Nodup)
    (hk : k ∈ rows.map (·.image_name))
    (he : etagOf batch k = some e) (hne : e ≠ "") :
    dictGet (rows.foldl (markStep batch) st).seen k = some e := by
  revert hnodup hk
  induction rows generalizing st with
  | nil => intro _ hk; simp at hk
  | cons r rest ih =>
    intro hnodup hk
    rw [List.foldl_cons]
    by_cases hr : r.image_name = k
    · have hstep : markStep batch st r = st.mark_processed k e := by
        simp [markStep, hr, he, hne]
      rw [hstep]
      have hnotin : ∀ r' ∈ rest, r'.image_name ≠ k := by
        intro r' hr' heq
        have : k ∈ rest.map (·.image_name) := heq ▸ List.mem_map_of_mem _ hr'
        rw [← hr] at this
        exact (List.nodup_cons.mp (by simpa using hnodup)).1 this
      rw [foldl_markStep_not_marked batch rest _ k (Or.inl hnotin)]
      simp [IncrementalState.mark_processed, dictGet_dictSet_self]
    · have hk' : k ∈ rest.map (·.image_name) := by
        rcases List.mem_map.mp hk with ⟨r', hr', hname⟩
        rcases List.mem_cons.mp hr' with rfl | hmem
        · exact absurd hname hr
        · exact hname ▸ List.mem_map_of_mem _ hmem
      exact ih (markStep batch st r)
        (List.nodup_cons.mp (by simpa using hnodup)).2 hk'

theorem successRows_names (proc : S3Obj → Except String (List (String × String)))
    (batch : List S3Obj) :
    ((batch.filterMap (fun o => (process_one proc o).toOption)).map
        HashRecord.to_row).map (·.image_name) = successKeys proc batch := by
  induction batch with
  | nil => rfl
  | cons o rest ih =>
    unfold successKeys at *
    simp only [List.map_map] at ih ⊢
    rw [List.filterMap_cons, List.filter_cons]
    cases hp : proc o with
    | ok hs =>
      have hpo : (process_one proc o).toOption =
          some ⟨o.key, o.job_number, o.job_url, hs⟩ := by
        simp [process_one, hp, Except.map, Except.toOption]
      have hps : ((proc o).toOption).isSome = true := by
        simp [hp, Except.toOption]
      rw [hpo]
      simp only [Except.toOption, Option.isSome_some, if_true, List.map_cons,
        Function.comp, HashRecord.to_row] at ih ⊢
      rw [ih]
    | error e =>
      have hpo : (process_one proc o).toOption = none := by
        simp [process_one, hp, Except.map, Except.toOption]
      have hps : ((proc o).toOption).isSome = false := by
        simp [hp, Except.toOption]
      rw [hpo]
      simp only [Except.toOption, Option.isSome_none, Bool.false_eq_true,
        if_false, List.filterMap_nil] at ih ⊢
      exact ih

theorem successKeys_sublist (proc : S3Obj → Except String (List (String × String)))
    (batch : List S3Obj) :
    (successKeys proc batch).Sublist (batch.map (·.key)) := by
  unfold successKeys
  exact (List.filter_sublist batch).map (·.key)

theorem mem_successKeys {proc : S3Obj → Except String (List (String × String))}
    {batch : List S3Obj} {o : S3Obj} (ho : o ∈ batch)
    (hok : (proc o).toOption.isSome) : o.key ∈ successKeys proc batch := by
  unfold successKeys
  exact List.mem_map_of_mem _ (List.mem_filter.mpr ⟨ho, by simpa using hok⟩)

/-- **C2** (amended; `drain_failures` spec-modelled, see `processBatchSpec`).
In every successful batch step of the checkpoint driver: (1) the state save is
the final durable event, strictly after the row append and failure-sidecar
append; (2) every identifier that produced a successful row *and carries a
non-empty etag* is marked in the saved state with that etag; (3) identifiers
that produced no successful row are untouched (failed ones stay unmarked and
are retried later); (4) a successful identifier whose etag is empty is —
contrary to the claim's "exactly" — also left untouched (the `if etag:` guard
on line 108); and (5) no identifier's state entry changes unless its row is in
the appended batch output. -/
theorem C2_checkpoint_order_and_marking
    (proc : S3Obj → Except String (List (String × String)))
    (batch : List S3Obj) (st st' : IncrementalState) (evs : List DriverEvent)
    (hnodup : (batch.map (·.key)).Nodup)
    (hok : processBatchSpec proc batch st = .ok (st', evs)) :
    (∃ pre, evs = pre ++ [DriverEvent.saveState st'] ∧
      ∀ e ∈ pre, e.isSave = false) ∧
    (∀ o ∈ batch, (proc o).toOption.isSome → o.etag ≠ "" →
      dictGet st'.seen o.key = some o.etag) ∧
    (∀ k, k ∉ successKeys proc batch →
      dictGet st'.seen k = dictGet st.seen k) ∧
    (∀ o ∈ batch, o.etag = "" →
      dictGet st'.seen o.key = dictGet st.seen o.key) ∧
    (∀ k, dictGet st'.seen k ≠ dictGet st.seen k →
      ∃ rows, DriverEvent.appendRows rows ∈ evs ∧
        k ∈ rows.map (·.image_name)) := by
  cases hbd : build_dataframe proc batch with
  | error e => simp [processBatchSpec, hbd] at hok
  | ok rows =>
    have hrows : ∃ recs, rows = recs.map HashRecord.to_row ∧
        recs = batch.filterMap (fun o => (process_one proc o).toOption) := by
      unfold build_dataframe at hbd
      by_cases hemp :
          (batch.filterMap (fun o => (process_one proc o).toOption)).isEmpty
      · rw [if_pos hemp] at hbd; cases hbd
      · rw [if_neg hemp] at hbd
        exact ⟨_, (Except.ok.inj hbd).symm, rfl⟩
    obtain ⟨recs, hrw, hrecs⟩ := hrows
    have hnames : rows.map (·.image_name) = successKeys proc batch := by
      rw [hrw, hrecs]; exact successRows_names proc batch
    simp only [processBatchSpec, hbd, Except.bind, bind, pure, Except.pure]
      at hok
    obtain ⟨hst, hevs⟩ := Prod.mk.injEq .. ▸ Except.ok.inj hok
    have hnamesNodup : (rows.map (·.image_name)).Nodup := by
      rw [hnames]
      exact hnodup.sublist (successKeys_sublist proc batch)
    refine ⟨?_, ?_, ?_, ?_, ?_⟩
    · refine ⟨(if rows.isEmpty then ([] : List DriverEvent)
          else [DriverEvent.appendRows rows]) ++
        (if (drainFailuresSpec proc batch).isEmpty then ([] : List DriverEvent)
          else [DriverEvent.appendFailures (drainFailuresSpec proc batch)]),
        by rw [← hevs, hst, List.append_assoc], ?_⟩
      intro e he
      rcases List.mem_append.mp he with h1 | h2
      · rcases rows.isEmpty with _ | _ <;> simp_all [DriverEvent.isSave]
      · rcases (drainFailuresSpec proc batch).isEmpty with _ | _ <;>
          simp_all [DriverEvent.isSave]
    · intro o ho hsome hetag
      rw [← hst]
      exact foldl_markStep_marked batch rows st o.key o.etag hnamesNodup
        (hnames ▸ mem_successKeys ho hsome) (etagOf_eq hnodup ho) hetag
    · intro k hk
      rw [← hst]
      refine foldl_markStep_not_marked batch rows st k (Or.inl ?_)
      intro r hr heq
      exact hk (heq ▸ hnames ▸ List.mem_map_of_mem _ hr)
    · intro o ho hetag
      rw [← hst]
      refine foldl_markStep_not_marked batch rows st o.key
        (Or.inr (Or.inr ?_))
      rw [etagOf_eq hnodup ho, hetag]
    · intro k hch
      have hkmem : k ∈ rows.map (·.image_name) := by
        by_contra hk
        refine hch ?_
        rw [← hst]
        refine foldl_markStep_not_marked batch rows st k (Or.inl ?_)
        intro r hr heq
        exact hk (heq ▸ List.mem_map_of_mem _ hr)
      refine ⟨rows, ?_, hkmem⟩
      have hne : ¬ rows.isEmpty := by
        cases rows with
        | nil => simp at hkmem
        | cons r rs => simp
      rw [← hevs]
      simp [hne]

/-- Witness for C2 at a concrete one-object batch that succeeds. -/
theorem C2_checkpoint_order_and_marking_witness :
    dictGet
      (match processBatchSpec (fun _ => .ok [("original_hash", "ab")])
          [⟨"img1.png", "e1", "job1", none⟩] ⟨[]⟩ with
        | .ok (st', _) => st'
        | .error _ => ⟨[]⟩).seen "img1.png" = some "e1" := by
  have h := C2_checkpoint_order_and_marking
    (fun _ => .ok [("original_hash", "ab")])
    [⟨"img1.png", "e1", "job1", none⟩] ⟨[]⟩
    ⟨[("img1.png", "e1")]⟩
    [DriverEvent.appendRows [⟨"img1.png", "job1", "",
        [("original_hash", "ab")]⟩],
      DriverEvent.saveState ⟨[("img1.png", "e1")]⟩]
    (by simp) (by rfl)
  have h2 := h.2.1 ⟨"img1.png", "e1", "job1", none⟩ (by simp) (by rfl)
    (by decide)
  simpa using h2

/-- **C2** (counterexample to the claim as stated).  The claim says the state
is updated "for exactly the identifiers that produced a successful row in that
batch".  For a batch whose only object has an empty etag and is processed
successfully, the row is appended but the `if etag:` guard (line 108) skips
the mark: the saved state records nothing for the identifier. -/
theorem C2_exactly_marking_counterexample :
    processBatchSpec (fun _ => .ok [("original_hash", "ab")])
        [⟨"img1.png", "", "job1", none⟩] ⟨[]⟩ =
      .ok (⟨[]⟩,
        [DriverEvent.appendRows [⟨"img1.png", "job1", "",
            [("original_hash", "ab")]⟩],
          DriverEvent.saveState ⟨[]⟩]) ∧
    dictGet (⟨[]⟩ : IncrementalState).seen "img1.png" = none := by
  constructor
  · rfl
  · rfl

/-! ## Theorems: candidate canonicalization and output order (C4) -/

theorem candMem_lt {df : DataFrame} {B n a b : Nat} {ci cj : String}
    (h : candMem df B n a b ci cj = true) : a < b := by
  simp only [candMem, Bool.or_eq_true, Bool.and_eq_true, decide_eq_true_eq]
    at h
  rcases h with ⟨_, hsame⟩ | hcross
  · simp only [sameColCand, Bool.and_eq_true, decide_eq_true_eq] at hsame
    exact hsame.1.1
  · simp only [crossCand, Bool.and_eq_true, decide_eq_true_eq,
      List.any_eq_true] at hcross
    obtain ⟨-, band, -, a', -, b', -, hinner⟩ := hcross
    obtain ⟨⟨⟨⟨hne, -⟩, -⟩, hmin⟩, hmax⟩ := hinner
    omega

/-- **C4** (amended).  For every index and parameter setting, every candidate
pair generated by `find_duplicates` is canonicalized *by row position* — the
lower row index first (spec §4.5 step 4) — so no symmetric pair is generated in
both orientations; and the returned list is sorted ascending by
`(distance, identifier_a, identifier_b)` (identifiers compared as Python
strings, i.e. lexicographically by code point).  Canonicalization by the total
order on *identifiers* (`identifier_a < identifier_b`) does **not** hold, see
the counterexample. -/
theorem C4_row_canonicalization_and_sorted_output :
    (∀ df B n a b ci cj, candMem df B n a b ci cj = true →
      a < b ∧ candMem df B n b a ci cj = false) ∧
    (∀ df cfg, (find_duplicates df cfg).Pairwise
      (fun x y => matchLe x y = true)) := by
  constructor
  · intro df B n a b ci cj h
    refine ⟨candMem_lt h, ?_⟩
    cases hba : candMem df B n b a ci cj with
    | false => rfl
    | true =>
      have h1 := candMem_lt h
      have h2 := candMem_lt hba
      omega
  · intro df cfg
    unfold find_duplicates
    by_cases h1 : hashCols df = []
    · simp [h1]
    · rw [if_neg h1]
      cases h2 : firstSample df with
      | none => simp
      | some s =>
        apply List.sorted_mergeSort
        · intro x y z hxy hyz
          simp only [matchLe, decide_eq_true_eq] at *
          exact le_trans hxy hyz
        · intro x y
          simp only [matchLe]
          rcases le_total (matchKey x) (matchKey y) with h | h
          · simp [h]
          · simp [h]

/-- The C4 counterexample frame: two rows with identical hashes whose image
names are in descending order relative to their row positions. -/
def dfBA : DataFrame :=
  ⟨["b", "a"], ["j1", "j2"], [("x_hash", [some "f", some "f"])]⟩

/-- Witness for C4 at the concrete candidate `(0, 1)` of `dfBA`. -/
theorem C4_row_canonicalization_witness :
    0 < 1 ∧ candMem dfBA 4 1 1 0 "x_hash" "x_hash" = false :=
  C4_row_canonicalization_and_sorted_output.1 dfBA 4 1 0 1 "x_hash" "x_hash"
    (by decide)

/-- **C4** (counterexample to the claim as stated).  On `dfBA` the single
match pairs row 0 (`"b"`) with row 1 (`"a"`), so it reports
`identifier_a = "b"`, `identifier_b = "a"` with `"a" < "b"` — the claimed
`identifier_a < identifier_b` canonicalization fails (the code canonicalizes
by row index, not by identifier). -/
theorem C4_identifier_order_counterexample :
    (find_duplicates dfBA ⟨5, 1⟩).map (fun m => (m.image_a, m.image_b)) =
      [("b", "a")] ∧
    ("a".toList < "b".toList) ∧ ¬ ("b".toList < "a".toList) := by
  refine ⟨?_, by decide, by decide⟩
  have hunf : find_duplicates dfBA ⟨5, 1⟩ =
      List.mergeSort ((candList dfBA 4 1).filterMap (matchOf dfBA ⟨5, 1⟩ 4))
        matchLe := rfl
  rw [hunf]
  have hperm :=
    (List.mergeSort_perm
      ((candList dfBA 4 1).filterMap (matchOf dfBA ⟨5, 1⟩ 4)) matchLe).map
      (fun m => (m.image_a, m.image_b))
  have hms : ((candList dfBA 4 1).filterMap (matchOf dfBA ⟨5, 1⟩ 4)).map
      (fun m => (m.image_a, m.image_b)) = [("b", "a")] := by decide
  rw [hms] at hperm
  exact List.perm_singleton.mp hperm

/-! ## Theorems: candidate verification and similarity (C5) -/

/-- **C5** (amended).  A candidate pair is retained iff *both decoded hash
integers are nonzero* and their exact Hamming distance (popcount of the XOR)
is at most `distance_threshold`; every retained match reports
`similarity = 1 - distance/B`; similarity is always at most `1`, and it is
nonnegative — hence in `[0, 1]` — whenever `distance ≤ B` (which the code does
not guarantee when hash strings wider than the sampled `B` appear, see the
counterexample). -/
theorem C5_verification_retention_and_similarity
    (df : DataFrame) (cfg : ScanCfg) (B a b : Nat) (ci cj : String) :
    ((matchOf df cfg B (a, b, ci, cj)).isSome = true ↔
      (decoded df ci a ≠ 0 ∧ decoded df cj b ≠ 0 ∧
        ((hamming_distance_int (decoded df ci a) (decoded df cj b) : Int) ≤
          cfg.distanceThreshold))) ∧
    (∀ m, matchOf df cfg B (a, b, ci, cj) = some m →
      m.distance = hamming_distance_int (decoded df ci a) (decoded df cj b) ∧
      m.similarity = 1 - (m.distance : ℚ) / (B : ℚ) ∧
      m.similarity ≤ 1 ∧
      (m.distance ≤ B → 0 ≤ m.similarity)) := by
  constructor
  · unfold matchOf
    dsimp only
    by_cases h0 : decoded df ci a = 0 ∨ decoded df cj b = 0
    · rw [if_pos h0]
      simp only [Option.isSome_none, Bool.false_eq_true, false_iff]
      rintro ⟨h1, h2, _⟩
      rcases h0 with h | h
      · exact h1 h
      · exact h2 h
    · rw [if_neg h0]
      push_neg at h0
      by_cases hd : ((hamming_distance_int (decoded df ci a)
          (decoded df cj b) : Int) ≤ cfg.distanceThreshold)
      · rw [if_pos hd]
        simp [h0.1, h0.2, hd]
      · rw [if_neg hd]
        simp [hd]
  · intro m hm
    unfold matchOf at hm
    dsimp only at hm
    by_cases h0 : decoded df ci a = 0 ∨ decoded df cj b = 0
    · rw [if_pos h0] at hm
      cases hm
    · rw [if_neg h0] at hm
      by_cases hd : ((hamming_distance_int (decoded df ci a)
          (decoded df cj b) : Int) ≤ cfg.distanceThreshold)
      · rw [if_pos hd] at hm
        cases Option.some.inj hm
        refine ⟨rfl, rfl, ?_, ?_⟩
        · have hnn : (0 : ℚ) ≤ (hamming_distance_int (decoded df ci a)
              (decoded df cj b) : ℚ) / (B : ℚ) :=
            div_nonneg (Nat.cast_nonneg _) (Nat.cast_nonneg _)
          simp only []
          linarith
        · intro hdB
          simp only [] at hdB ⊢
          rcases Nat.eq_zero_or_pos B with hB | hB
          · subst hB
            simp
          · have h1 : (hamming_distance_int (decoded df ci a)
                (decoded df cj b) : ℚ) / (B : ℚ) ≤ 1 := by
              rw [div_le_one (by exact_mod_cast hB)]
              exact_mod_cast hdB
            linarith
      · rw [if_neg hd] at hm
        cases hm

/-- Witness for C5: both parts applied at the concrete retained candidate
`(0, 1)` of `dfBA`. -/
theorem C5_verification_witness :
    ∃ m, matchOf dfBA ⟨5, 1⟩ 4 (0, 1, "x_hash", "x_hash") = some m ∧
      m.distance =
        hamming_distance_int (decoded dfBA "x_hash" 0)
          (decoded dfBA "x_hash" 1) ∧
      m.similarity = 1 - (m.distance : ℚ) / ((4 : Nat) : ℚ) := by
  cases hx : matchOf dfBA ⟨5, 1⟩ 4 (0, 1, "x_hash", "x_hash") with
  | none =>
    have hs : (matchOf dfBA ⟨5, 1⟩ 4 (0, 1, "x_hash", "x_hash")).isSome =
        true := by decide
    rw [hx] at hs
    cases hs
  | some m =>
    have h := (C5_verification_retention_and_similarity dfBA ⟨5, 1⟩ 4 0 1
      "x_hash" "x_hash").2 m hx
    exact ⟨m, rfl, h.1, h.2.1⟩

/-- C5/C7 counterexample frame: two columns, each row having exactly one
parseable hash, so that the cross-column canonical swap makes the scanner
validate a pair whose decoded integers are both `0`. -/
def dfCross : DataFrame :=
  ⟨["i0", "i1"], ["j", "j"],
    [("a_hash", [none, some "3"]), ("b_hash", [some "3", none])]⟩

/-- C5 counterexample frame: the sampled first hash is 1 hex digit (`B = 4`),
the second is 4 hex digits, so a retained cross-width match has distance 12
and similarity `1 - 12/4 = -2`. -/
def dfWide : DataFrame :=
  ⟨["i0", "i1"], ["j", "j"], [("x_hash", [some "f", some "ffff"])]⟩

/-- **C5** (counterexample to the claim as stated).  (i) On `dfCross` with the
default parameters, the candidate `(0, 1, a_hash, b_hash)` is generated, its
two decoded hash integers have exact Hamming distance `0 ≤ 5`, yet the pair is
*not* retained (both integers are `0`, so line 135 drops it) — refuting
"retained iff distance ≤ threshold".  (ii) On `dfWide` with threshold 20 the
scanner retains a match with `distance = 12` but `B = 4`, so
`similarity = 1 - 12/4 = -2 ∉ [0, 1]`. -/
theorem C5_retention_and_range_counterexample :
    (candMem dfCross 4 8 0 1 "a_hash" "b_hash" = true ∧
      firstSample dfCross = some "3" ∧ sampleTotalBits "3" = 4 ∧
      hamming_distance_int (decoded dfCross "a_hash" 0)
        (decoded dfCross "b_hash" 1) = 0 ∧
      matchOf dfCross ⟨5, 8⟩ 4 (0, 1, "a_hash", "b_hash") = none) ∧
    (firstSample dfWide = some "f" ∧ sampleTotalBits "f" = 4 ∧
      ∃ m ∈ find_duplicates dfWide ⟨20, 1⟩,
        m.distance = 12 ∧ m.similarity < 0) := by
  refine ⟨⟨by decide, by decide, by decide, by decide, by decide⟩,
    by decide, by decide, ?_⟩
  cases hx : matchOf dfWide ⟨20, 1⟩ 4 (0, 1, "x_hash", "x_hash") with
  | none =>
    have hs : (matchOf dfWide ⟨20, 1⟩ 4 (0, 1, "x_hash", "x_hash")).isSome =
        true := by decide
    rw [hx] at hs
    cases hs
  | some m =>
    have hval : (matchOf dfWide ⟨20, 1⟩ 4 (0, 1, "x_hash", "x_hash")).map
        (fun m => (m.distance, m.similarity)) =
        some (12, 1 - (12 : ℚ) / 4) := rfl
    rw [hx] at hval
    dsimp only [Option.map] at hval
    have hfields := Prod.mk.injEq .. ▸ Option.some.inj hval
    refine ⟨m, ?_, ?_, ?_⟩
    · have hunf : find_duplicates dfWide ⟨20, 1⟩ =
          List.mergeSort
            ((candList dfWide 4 1).filterMap (matchOf dfWide ⟨20, 1⟩ 4))
            matchLe := rfl
      rw [hunf, List.mem_mergeSort]
      exact List.mem_filterMap.mpr ⟨(0, 1, "x_hash", "x_hash"), by decide, hx⟩
    · exact hfields.1
    · rw [hfields.2]
      norm_num

/-! ## Theorems: banding finds exact duplicates (C7) -/

theorem popcountAux_eq_zero (fuel n : Nat) (h : n ≤ fuel) :
    popcountAux fuel n = 0 ↔ n = 0 := by
  induction fuel generalizing n with
  | zero =>
    have : n = 0 := by omega
    subst this
    simp [popcountAux]
  | succ fuel ih =>
    by_cases hn0 : n = 0
    · subst hn0
      simp [popcountAux]
    · have hdiv : n / 2 ≤ fuel := by omega
      simp only [popcountAux, if_neg hn0, Nat.add_eq_zero, ih _ hdiv]
      omega

theorem popcount_eq_zero (n : Nat) : popcount n = 0 ↔ n = 0 :=
  popcountAux_eq_zero n n (Nat.le_refl n)

theorem hamming_distance_int_eq_zero (x y : Nat) :
    hamming_distance_int x y = 0 ↔ x = y := by
  unfold hamming_distance_int
  rw [popcount_eq_zero]
  exact Nat.xor_eq_zero

theorem mem_bucketList {df : DataFrame} {B n : Nat} {c : String}
    {band key i : Nat} (hi : i < df.nRows) (hnz : decoded df c i ≠ 0)
    (hkey : keyAt df B n c i band = key) :
    i ∈ bucketList df B n c band key := by
  unfold bucketList
  exact List.mem_filter.mpr
    ⟨List.mem_range.mpr hi, by simp [hnz, hkey]⟩

theorem sameColCand_of_equal_nonzero (df : DataFrame) (B n a b : Nat)
    (c : String) (hn : 1 ≤ n) (ha : a < df.nRows) (hb : b < df.nRows)
    (hab : a < b) (hc : c ∈ hashCols df)
    (heq : decoded df c a = decoded df c b) (hnz : decoded df c a ≠ 0) :
    sameColCand df B n a b c = true := by
  simp only [sameColCand, Bool.and_eq_true, decide_eq_true_eq,
    List.any_eq_true]
  refine ⟨⟨hab, ?_⟩, 0, List.mem_range.mpr (by omega), ?_⟩
  · exact List.elem_eq_true_of_mem hc
  · have hkey : keyAt df B n c b 0 = keyAt df B n c a 0 := by
      unfold keyAt
      rw [← heq]
    constructor
    · exact List.elem_eq_true_of_mem (mem_bucketList ha hnz rfl)
    · exact List.elem_eq_true_of_mem (mem_bucketList hb (heq ▸ hnz) hkey)

/-- **C7** (amended).  For any two distinct rows whose hash strings in some
column decode to the same *nonzero* integer (in particular, true Hamming
distance `0`), and for every band count `num_bands ≥ 1`, the banding step puts
both rows in a shared bucket of band `0`, so the canonicalized pair is in the
candidate set.  The nonzero requirement is forced by the code: rows whose hash
decodes to `0` are never bucketed (line 96), see the counterexample. -/
theorem C7_exact_duplicates_are_candidates (df : DataFrame) (B n a b : Nat)
    (c : String) (hn : 1 ≤ n) (ha : a < df.nRows) (hb : b < df.nRows)
    (hab : a ≠ b) (hc : c ∈ hashCols df)
    (h0 : hamming_distance_int (decoded df c a) (decoded df c b) = 0)
    (hnz : decoded df c a ≠ 0) :
    candMem df B n (min a b) (max a b) c c = true := by
  have heq : decoded df c a = decoded df c b :=
    (hamming_distance_int_eq_zero _ _).mp h0
  rcases Nat.lt_or_ge a b with hlt | hge
  · have hmin : min a b = a := Nat.min_eq_left (Nat.le_of_lt hlt)
    have hmax : max a b = b := Nat.max_eq_right (Nat.le_of_lt hlt)
    rw [hmin, hmax]
    have hsc := sameColCand_of_equal_nonzero df B n a b c hn ha hb hlt hc
      heq hnz
    simp [candMem, hsc]
  · have hlt : b < a := by omega
    have hmin : min a b = b := Nat.min_eq_right (Nat.le_of_lt hlt)
    have hmax : max a b = a := Nat.max_eq_left (Nat.le_of_lt hlt)
    rw [hmin, hmax]
    have hsc := sameColCand_of_equal_nonzero df B n b a c hn hb ha hlt hc
      heq.symm (heq ▸ hnz)
    simp [candMem, hsc]

/-- The C7 counterexample frame: two rows whose hash strings parse to the
integer `0`. -/
def dfZero : DataFrame :=
  ⟨["i0", "i1"], ["j", "j"], [("x_hash", [some "00", some "00"])]⟩

/-- Witness for C7 on `dfBA` (`num_bands = 1`, equal nonzero hashes). -/
theorem C7_exact_duplicates_witness :
    candMem dfBA 4 1 (min 0 1) (max 0 1) "x_hash" "x_hash" = true :=
  C7_exact_duplicates_are_candidates dfBA 4 1 0 1 "x_hash"
    (by norm_num) (by decide) (by decide) (by decide) (by decide) (by decide)
    (by decide)

/-- **C7** (counterexample to the claim as stated).  The two rows of `dfZero`
have hash values with true Hamming distance `0` in column `x_hash`, yet they
are placed in no bucket (their decoded value is `0`, skipped at line 96), the
pair is not in the candidate set for `num_bands = 1`, and the scanner finds
no duplicates at all. -/
theorem C7_zero_hash_counterexample :
    hamming_distance_int (decoded dfZero "x_hash" 0)
      (decoded dfZero "x_hash" 1) = 0 ∧
    bucketList dfZero 4 1 "x_hash" 0 (keyAt dfZero 4 1 "x_hash" 0 0) = [] ∧
    candMem dfZero 4 1 0 1 "x_hash" "x_hash" = false ∧
    find_duplicates dfZero ⟨5, 1⟩ = [] := by
  refine ⟨by decide, by decide, by decide, ?_⟩
  have h1 : (candList dfZero 4 1).filterMap (matchOf dfZero ⟨5, 1⟩ 4) = [] :=
    by decide
  have hunf : find_duplicates dfZero ⟨5, 1⟩ =
      List.mergeSort
        ((candList dfZero 4 1).filterMap (matchOf dfZero ⟨5, 1⟩ 4))
        matchLe := rfl
  rw [hunf, h1, List.mergeSort_nil]

/-! ## Theorems: the single-sample total bit width (C10) -/

theorem matchOf_similarity {df : DataFrame} {cfg : ScanCfg} {B : Nat}
    {cand : Nat × Nat × String × String} {m : DuplicateMatch}
    (hm : matchOf df cfg B cand = some m) :
    m.similarity = 1 - (m.distance : ℚ) / (B : ℚ) := by
  obtain ⟨a, b, ci, cj⟩ := cand
  unfold matchOf at hm
  dsimp only at hm
  by_cases h0 : decoded df ci a = 0 ∨ decoded df cj b = 0
  · rw [if_pos h0] at hm
    cases hm
  · rw [if_neg h0] at hm
    by_cases hd : ((hamming_distance_int (decoded df ci a)
        (decoded df cj b) : Int) ≤ cfg.distanceThreshold)
    · rw [if_pos hd] at hm
      cases Option.some.inj hm
      rfl
    · rw [if_neg hd] at hm
      cases hm

/-- The claim's own words, as a definition: the bit width derived from "the
first parseable hash value of the first hash column". -/
def claimFirstParseableBits (df : DataFrame) : Option Nat :=
  (((df.col ((hashCols df).getD 0 "")).filterMap id).filterMap
    hexToHashBits).head?

/-- **C10** (amended).  `find_duplicates` derives the total width `B` from a
single sample — the first *non-null* value of the first hash column — falling
back to `64` when that sample cannot be parsed, and that one width is the
similarity denominator of every emitted match, whatever the widths of the
other hash strings (the same `B` is threaded into the band partition and band
keys of every column by construction of the algorithm). -/
theorem C10_single_sample_total_bits :
    (∀ s, hexToHashBits s = none → sampleTotalBits s = 64) ∧
    (∀ df cfg m, m ∈ find_duplicates df cfg →
      ∃ s, firstSample df = some s ∧
        m.similarity = 1 - (m.distance : ℚ) / ((sampleTotalBits s : Nat) : ℚ)) := by
  constructor
  · intro s h
    simp [sampleTotalBits, h]
  · intro df cfg m hm
    unfold find_duplicates at hm
    by_cases h1 : hashCols df = []
    · rw [if_pos h1] at hm
      cases hm
    · rw [if_neg h1] at hm
      cases h2 : firstSample df with
      | none =>
        rw [h2] at hm
        cases hm
      | some s =>
        rw [h2] at hm
        dsimp only at hm
        rw [List.mem_mergeSort] at hm
        obtain ⟨cand, -, hof⟩ := List.mem_filterMap.mp hm
        exact ⟨s, rfl, matchOf_similarity hof⟩

/-- Witness for C10's fallback at the unparseable sample `"zz"`. -/
theorem C10_single_sample_witness : sampleTotalBits "zz" = 64 :=
  C10_single_sample_total_bits.1 "zz" (by decide)

/-- The C10 counterexample frame: the first non-null sample of the first hash
column is unparseable, a later value is a parseable 64-hex-digit (256-bit)
hash. -/
def dfSample : DataFrame :=
  ⟨["i0", "i1"], ["j", "j"],
    [("x_hash", [some "zz",
      some "0000000000000000000000000000000000000000000000000000000000000001"])]⟩

/-- **C10** (counterexample to the claim as stated).  The claim says `B` comes
from "the first parseable hash value of the first hash column".  On `dfSample`
the first *non-null* value `"zz"` is unparseable, so the code falls back to
`B = 64` — but the first *parseable* value is 256 bits wide.  The code never
searches for a parseable sample. -/
theorem C10_first_parseable_counterexample :
    firstSample dfSample = some "zz" ∧
    hexToHashBits "zz" = none ∧
    sampleTotalBits "zz" = 64 ∧
    claimFirstParseableBits dfSample = some 256 ∧
    (64 : Nat) ≠ 256 := by
  refine ⟨by decide, by decide, by decide, by decide, by decide⟩

/-! ## Theorems: the final consolidation pass (C8) -/

theorem keepLast_sublist : ∀ l : List (String × String), (keepLast l).Sublist l
  | [] => List.Sublist.refl _
  | r :: rs => by
    unfold keepLast
    by_cases h : (rs.any (fun s => s.1 = r.1)) = true
    · rw [if_pos h]
      exact (keepLast_sublist rs).trans (List.sublist_cons_self r rs)
    · rw [if_neg h]
      exact (keepLast_sublist rs).cons₂ r

theorem keepLast_keys_nodup :
    ∀ l : List (String × String), ((keepLast l).map (·.1)).Nodup
  | [] => by simp [keepLast]
  | r :: rs => by
    unfold keepLast
    by_cases h : (rs.any (fun s => s.1 = r.1)) = true
    · rw [if_pos h]
      exact keepLast_keys_nodup rs
    · rw [if_neg h]
      simp only [List.map_cons, List.nodup_cons]
      refine ⟨?_, keepLast_keys_nodup rs⟩
      intro hmem
      obtain ⟨s, hs, hseq⟩ := List.mem_map.mp hmem
      have hsrs : s ∈ rs := (keepLast_sublist rs).subset hs
      exact h (List.any_eq_true.mpr ⟨s, hsrs, by simp [hseq]⟩)

theorem keepLast_length_eq_iff :
    ∀ l : List (String × String),
      (keepLast l).length = l.length ↔ (l.map (·.1)).Nodup
  | [] => by simp [keepLast]
  | r :: rs => by
    unfold keepLast
    by_cases h : (rs.any (fun s => s.1 = r.1)) = true
    · rw [if_pos h]
      have hle := (keepLast_sublist rs).length_le
      simp only [List.length_cons, List.map_cons, List.nodup_cons]
      constructor
      · intro hlen
        omega
      · rintro ⟨habs, -⟩
        obtain ⟨s, hs, hseq⟩ := List.any_eq_true.mp h
        simp only [decide_eq_true_eq] at hseq
        exact absurd (List.mem_map.mpr ⟨s, hs, hseq⟩) habs
    · rw [if_neg h]
      have hnotin : r.1 ∉ rs.map (·.1) := by
        intro hmem
        obtain ⟨s, hs, hseq⟩ := List.mem_map.mp hmem
        exact h (List.any_eq_true.mpr ⟨s, hs, by simp [hseq]⟩)
      simp only [List.length_cons, List.map_cons, List.nodup_cons]
      simp [hnotin, keepLast_length_eq_iff rs]

theorem keys_keepLast :
    ∀ (l : List (String × String)) (k : String),
      k ∈ l.map (·.1) ↔ k ∈ (keepLast l).map (·.1)
  | [], _ => Iff.rfl
  | r :: rs, k => by
    unfold keepLast
    by_cases h : (rs.any (fun s => s.1 = r.1)) = true
    · rw [if_pos h]
      simp only [List.map_cons, List.mem_cons]
      constructor
      · rintro (rfl | hk)
        · obtain ⟨s, hs, hseq⟩ := List.any_eq_true.mp h
          simp only [decide_eq_true_eq] at hseq
          exact (keys_keepLast rs r.1).mp (List.mem_map.mpr ⟨s, hs, hseq⟩)
        · exact (keys_keepLast rs k).mp hk
      · intro hk
        exact Or.inr ((keys_keepLast rs k).mpr hk)
    · rw [if_neg h]
      simp only [List.map_cons, List.mem_cons]
      exact or_congr Iff.rfl (keys_keepLast rs k)

/-- **C8** (amended).  For every read-back index `rows` and every possible
outcome `p` of the (unstable) sort by identifier: the pass rewrites the file
(`some out`) iff `rows` contains duplicate identifiers; when it rewrites, the
output has pairwise-distinct identifiers, every output row is one of the
original rows, and exactly the original identifiers survive; and on an
already-deduplicated index it changes nothing (`none`, no write).  Which row
survives among several with the same identifier is *not* specified — "keeping
the most recently written row" fails for some legal outcomes of the unstable
default sort, see the counterexample. -/
theorem C8_consolidation_dedup_and_idempotence
    (rows p : List (String × String)) (hsort : IsSortResult rows p) :
    (consolidate rows p = none ↔ (rows.map (·.1)).Nodup) ∧
    (∀ out, consolidate rows p = some out →
      (out.map (·.1)).Nodup ∧ (∀ r ∈ out, r ∈ rows) ∧
      (∀ k, k ∈ rows.map (·.1) ↔ k ∈ out.map (·.1))) ∧
    ((rows.map (·.1)).Nodup → consolidate rows p = none) := by
  obtain ⟨hperm, -⟩ := hsort
  have hlen : p.length = rows.length := hperm.length_eq
  have hkeysperm : (p.map (·.1)).Perm (rows.map (·.1)) := hperm.map _
  have hnodupiff : (p.map (·.1)).Nodup ↔ (rows.map (·.1)).Nodup :=
    hkeysperm.nodup_iff
  have hiff : consolidate rows p = none ↔ (rows.map (·.1)).Nodup := by
    unfold consolidate
    by_cases hne : (keepLast p).length ≠ rows.length
    · rw [if_pos hne]
      refine iff_of_false (by simp) ?_
      intro hnodup
      exact hne (hlen ▸ (keepLast_length_eq_iff p).mpr (hnodupiff.mpr hnodup))
    · rw [if_neg hne]
      push_neg at hne
      exact iff_of_true rfl
        (hnodupiff.mp ((keepLast_length_eq_iff p).mp (hne.trans hlen.symm)))
  refine ⟨hiff, ?_, hiff.mpr⟩
  intro out hout
  have hkl : out = keepLast p := by
    unfold consolidate at hout
    by_cases hne : (keepLast p).length ≠ rows.length
    · rw [if_pos hne] at hout
      exact (Option.some.inj hout).symm
    · rw [if_neg hne] at hout
      cases hout
  subst hkl
  refine ⟨keepLast_keys_nodup p, ?_, ?_⟩
  · intro r hr
    exact hperm.subset ((keepLast_sublist p).subset hr)
  · intro k
    constructor
    · intro hk
      exact (keys_keepLast p k).mp (hkeysperm.mem_iff.mpr hk)
    · intro hk
      exact hkeysperm.mem_iff.mp ((keys_keepLast p k).mpr hk)

/-- Witness for C8: a two-row already-deduplicated index, with the sort
outcome that orders the keys ascending; consolidation leaves it untouched. -/
theorem C8_consolidation_witness :
    consolidate [("b", "1"), ("a", "2")] [("a", "2"), ("b", "1")] = none :=
  (C8_consolidation_dedup_and_idempotence
    [("b", "1"), ("a", "2")] [("a", "2"), ("b", "1")]
    ⟨List.Perm.swap ("b", "1") ("a", "2") [], by decide⟩).2.2 (by decide)

/-- **C8** (counterexample to the claim as stated).  `sort_values` uses the
unstable default quicksort, so on an index with two rows for identifier `"k"`
— `("k", "old")` written first, `("k", "new")` written last — the reversed
order is also a legal sort outcome (the keys are equal), and
`drop_duplicates(keep="last")` then keeps `("k", "old")`: not the most
recently written row. -/
theorem C8_keep_most_recent_counterexample :
    IsSortResult [("k", "old"), ("k", "new")] [("k", "new"), ("k", "old")] ∧
    consolidate [("k", "old"), ("k", "new")] [("k", "new"), ("k", "old")] =
      some [("k", "old")] := by
  refine ⟨⟨List.Perm.swap ("k", "old") ("k", "new") [], by decide⟩, by decide⟩

end SiteTracker
